import Mathlib

/-!
The stale-while-revalidate cacher of `cacher/cache.go`.

A shallow embedding of `cacher.get` and of the regeneration job it sends on
the job queue. The storage engine (`common.Engine`) is an interface whose
implementations live outside the file, so it is a parameter: a record of
state-passing methods over an arbitrary engine state `σ`. Every call the
code issues is appended to a call log, so that statements about which calls
happen, how often and in which order are statements about that log.

The embedding is the sequential execution of one goroutine: `get` is the
body run by the read goroutine, `Job.run` is the body of the closure a
worker runs later, `Expire` is the passthrough to the engine. `Get` and the
handle it returns are a `Session`: the variables of one `Get` call, advanced
by whole steps (the goroutine, a materialisation, a job run) in any order.
`getScheduled` is `get` under a schedule for the one place where another
goroutine shares variables with it: the job sent on the stale, unlocked path
assigns the named results that the following `return` reads.
Calls return; a panic inside the engine or inside `regenerate` is not
modelled.
-/

namespace cacher

/-- Go `[]byte`; `none` is the nil slice. -/
abbrev Bytes := Option (List (Fin 256))

/-- Go `error`; `none` is the nil error. -/
abbrev Err := Option String

/-- Go `time.Time`, an instant on an integer time line. -/
abbrev Time := Int

/-- One entry of the call log: a method call on `c.engine`, a call of the
user-supplied `regenerate`, or a send on `c.jobQueue`. -/
inductive Call where
  | Exists (key : String)
  | Get (key : String)
  | Put (key : String) (data : Bytes) (expires : Time)
  | IsExpired (key : String)
  | IsLocked (key : String)
  | Lock (key : String)
  | Unlock (key : String)
  | Expire (key : String)
  | regenerate
  | send
  deriving DecidableEq

/-- The methods of `common.Engine` that `cache.go` calls, as state-passing
functions over the engine state `σ`. Every method may change the state. -/
structure Engine (σ : Type) where
  Exists : σ → String → σ × Bool
  Get : σ → String → σ × (Bytes × Err)
  Put : σ → String → Bytes → Time → σ × Err
  IsExpired : σ → String → σ × Bool
  IsLocked : σ → String → σ × Bool
  Lock : σ → String → σ
  Unlock : σ → String → σ
  Expire : σ → String → σ × Err

/-- The user-supplied `regenerate func() ([]byte, error)`: a closure that may
read and change the environment it shares with the engine. -/
abbrev Regen (σ : Type) := σ → σ × (Bytes × Err)

/-- The closure sent on the job queue (cache.go lines 52-58), as the record of
the variables it captures. Its body is `Job.run`. -/
structure Job (σ : Type) where
  key : String
  expires : Time
  regenerate : Regen σ

/-- What an execution acts on: the engine state, the log of calls issued so
far (oldest first) and the jobs sent on `c.jobQueue` (oldest first). -/
structure World (σ : Type) where
  eng : σ
  trace : List Call
  jobQueue : List (Job σ)

variable {σ : Type}

/-- Append one call to the log. -/
def World.log (w : World σ) (c : Call) : World σ :=
  ⟨w.eng, w.trace ++ [c], w.jobQueue⟩

/-- Replace the engine state. -/
def World.setEng (w : World σ) (s : σ) : World σ :=
  ⟨s, w.trace, w.jobQueue⟩

/-- The call `c.engine.Exists(key)`. -/
def callExists (E : Engine σ) (w : World σ) (key : String) : World σ × Bool :=
  (((w.log (Call.Exists key)).setEng (E.Exists w.eng key).1), (E.Exists w.eng key).2)

/-- The call `c.engine.Get(key)`. -/
def callGet (E : Engine σ) (w : World σ) (key : String) : World σ × (Bytes × Err) :=
  (((w.log (Call.Get key)).setEng (E.Get w.eng key).1), (E.Get w.eng key).2)

/-- The call `c.engine.IsExpired(key)`. -/
def callIsExpired (E : Engine σ) (w : World σ) (key : String) : World σ × Bool :=
  (((w.log (Call.IsExpired key)).setEng (E.IsExpired w.eng key).1), (E.IsExpired w.eng key).2)

/-- The call `c.engine.IsLocked(key)`. -/
def callIsLocked (E : Engine σ) (w : World σ) (key : String) : World σ × Bool :=
  (((w.log (Call.IsLocked key)).setEng (E.IsLocked w.eng key).1), (E.IsLocked w.eng key).2)

/-- The call `c.engine.Lock(key)`. -/
def callLock (E : Engine σ) (w : World σ) (key : String) : World σ :=
  (w.log (Call.Lock key)).setEng (E.Lock w.eng key)

/-- The call `c.engine.Unlock(key)`. -/
def callUnlock (E : Engine σ) (w : World σ) (key : String) : World σ :=
  (w.log (Call.Unlock key)).setEng (E.Unlock w.eng key)

/-- The call `c.engine.Put(key, data, expires)`. -/
def callPut (E : Engine σ) (w : World σ) (key : String) (data : Bytes) (expires : Time) :
    World σ × Err :=
  (((w.log (Call.Put key data expires)).setEng (E.Put w.eng key data expires).1),
    (E.Put w.eng key data expires).2)

/-- The call `regenerate()`. -/
def callRegenerate (w : World σ) (regenerate : Regen σ) : World σ × (Bytes × Err) :=
  (((w.log Call.regenerate).setEng (regenerate w.eng).1), (regenerate w.eng).2)

/-- The send `c.jobQueue <- job`, once it has gone through: the job joins the
queue. The channel is bounded: a send on a full channel waits until a worker
receives, so this function describes only the schedules in which the send
goes through; `getScheduled` has the schedule in which it does not. -/
def sendJob (w : World σ) (job : Job σ) : World σ :=
  ⟨w.eng, w.trace ++ [Call.send], w.jobQueue ++ [job]⟩

/-- Body of the closure sent on the job queue (cache.go lines 52-58):
`Lock`, then `data, err = regenerate()`, then `Put` whose result is dropped,
then the deferred `Unlock`. The second component is the pair the closure
assigns to the `data` and `err` variables it captured from `get`. -/
def Job.run (E : Engine σ) (w : World σ) (j : Job σ) : World σ × (Bytes × Err) :=
  let w1 := callLock E w j.key
  let r := callRegenerate w1 j.regenerate
  let p := callPut E r.1 j.key r.2.1 j.expires
  (callUnlock E p.1 j.key, r.2)

/-- The method `cacher.get` (cache.go lines 32-80) run without interference.
The named results `data` and `err` start as nil; a bare `return` yields
their current values; the deferred `Unlock` of the cold path runs on both of
its returns. On the stale, unlocked path (lines 52-59) this is the schedule
in which the send goes through and no worker runs the sent job before the
`return` of line 59; `getScheduled` has the other schedules of that path. -/
def get (E : Engine σ) (w : World σ) (key : String) (expires : Time) (regenerate : Regen σ) :
    World σ × (Bytes × Err) :=
  let x := callExists E w key
  if x.2 then
    let g := callGet E x.1 key
    if g.2.2 ≠ none then (g.1, g.2)
    else
      let e := callIsExpired E g.1 key
      if !e.2 then (e.1, g.2)
      else
        let l := callIsLocked E e.1 key
        if l.2 then (l.1, g.2)
        else (sendJob l.1 ⟨key, expires, regenerate⟩, g.2)
  else
    let l := callIsLocked E x.1 key
    if l.2 then (l.1, (none, none))
    else
      let w1 := callLock E l.1 key
      let r := callRegenerate w1 regenerate
      if r.2.2 ≠ none then (callUnlock E r.1 key, r.2)
      else
        let p := callPut E r.1 key r.2.1 expires
        (callUnlock E p.1 key, (r.2.1, p.2))

/-- The calls an execution issued: the part of the log of `after` that was
not yet in the log of `before`. -/
def issued (before after : World σ) : List Call :=
  after.trace.drop before.trace.length

/-- What the scheduler does with the send of line 52 and with the job it
carries, up to the `return` of line 59. -/
inductive Sched where
  -- the channel is full and no worker receives: the send has not gone through
  | blocked
  -- the send goes through and no worker runs the job before `get` returns
  | quiet
  -- the send goes through, a worker receives the job and runs it to its end
  -- before `get` returns
  | overlapped
  deriving DecidableEq

/-- The method `cacher.get` (cache.go lines 32-80) under a schedule for its
stale, unlocked path. The closure sent at line 52 assigns, at line 56, the
named results `data` and `err` of this very call, and the `return` of line 59
is bare: it yields whatever these variables hold then. So when a worker has
run the job before that `return`, `get` returns the pair `regenerate`
returned, and the calls of the job are in the log before `get` is done; the
job has left the queue. `none` stands for a `get` still waiting at the send.
The other paths send nothing and do not depend on the schedule. -/
def getScheduled (E : Engine σ) (w : World σ) (key : String) (expires : Time)
    (regenerate : Regen σ) (sched : Sched) : Option (World σ × (Bytes × Err)) :=
  let x := callExists E w key
  if x.2 then
    let g := callGet E x.1 key
    if g.2.2 ≠ none then some (g.1, g.2)
    else
      let e := callIsExpired E g.1 key
      if !e.2 then some (e.1, g.2)
      else
        let l := callIsLocked E e.1 key
        if l.2 then some (l.1, g.2)
        else
          match sched with
          | Sched.blocked => none
          | Sched.quiet => some (sendJob l.1 ⟨key, expires, regenerate⟩, g.2)
          | Sched.overlapped =>
            some ((⟨key, expires, regenerate⟩ : Job σ).run E (l.1.log Call.send))
  else
    let l := callIsLocked E x.1 key
    if l.2 then some (l.1, (none, none))
    else
      let w1 := callLock E l.1 key
      let r := callRegenerate w1 regenerate
      if r.2.2 ≠ none then some (callUnlock E r.1 key, r.2)
      else
        let p := callPut E r.1 key r.2.1 expires
        some (callUnlock E p.1 key, (r.2.1, p.2))

/-- Modelled from the spec: the Engine contract of section 6.1 (the engine
packages are not in `cache.go`). A reference in-memory engine: a clock, the
stored entries (value and expiry) and the keys whose lock is held. -/
structure Mem where
  now : Time
  entries : List (String × (Bytes × Time))
  locked : List String

/-- Modelled from the spec: the eight operations of the Engine contract of
section 6.1 on the reference in-memory engine. `Get` of an absent key yields
nil bytes; `Expire` moves the expiry of a present key to the current time. -/
def memEngine : Engine Mem where
  Exists s k := (s, (s.entries.lookup k).isSome)
  Get s k := (s, match s.entries.lookup k with
    | some e => (e.1, none)
    | none => (none, none))
  Put s k d t := (⟨s.now, (k, (d, t)) :: s.entries.filter (fun e => e.1 ≠ k), s.locked⟩, none)
  IsExpired s k := (s, match s.entries.lookup k with
    | some e => decide (e.2 ≤ s.now)
    | none => false)
  IsLocked s k := (s, decide (k ∈ s.locked))
  Lock s k := ⟨s.now, s.entries, k :: s.locked⟩
  Unlock s k := ⟨s.now, s.entries, s.locked.erase k⟩
  Expire s k := (⟨s.now, s.entries.map (fun e => if e.1 = k then (e.1, (e.2.1, s.now)) else e),
    s.locked⟩, none)

/-- The bytes of "v1". -/
def v1 : Bytes := some [118, 49]

/-- The bytes of "v2". -/
def v2 : Bytes := some [118, 50]

/-- A regenerate function that returns "v2" and no error. -/
def regenV2 : Regen Mem := fun s => (s, (v2, none))

/-- A regenerate function that fails with nil bytes. -/
def regenFail : Regen Mem := fun s => (s, (none, some "regenerate failed"))

/-- An empty engine at time 10. -/
def memEmpty : World Mem := ⟨⟨10, [], []⟩, [], []⟩

/-- An engine at time 10 holding "v1" under "a" with an expiry of 20 (fresh). -/
def memFresh : World Mem := ⟨⟨10, [("a", (v1, 20))], []⟩, [], []⟩

/-- An engine at time 10 holding "v1" under "a" with an expiry of 9 (stale), unlocked. -/
def memStale : World Mem := ⟨⟨10, [("a", (v1, 9))], []⟩, [], []⟩

/-- As `memStale`, with the lock of "a" held. -/
def memStaleLocked : World Mem := ⟨⟨10, [("a", (v1, 9))], ["a"]⟩, [], []⟩

/-- An empty engine at time 10 in which the lock of "a" is held. -/
def memAbsentLocked : World Mem := ⟨⟨10, [], ["a"]⟩, [], []⟩

/-- The engine's three read calls leave the engine state as it was. -/
def Engine.ReadsKeepState (E : Engine σ) : Prop :=
  (∀ s k, (E.Exists s k).1 = s) ∧ (∀ s k, (E.Get s k).1 = s) ∧ (∀ s k, (E.IsExpired s k).1 = s)

/-- The state change `f` keeps `key` absent when it was absent. -/
def Engine.KeepsAbsent (E : Engine σ) (key : String) (f : σ → σ) : Prop :=
  ∀ s, (E.Exists s key).2 = false → (E.Exists (f s) key).2 = false

/-- Whether this execution holds the lock of `key` after the calls `t`, given
whether it held it (`h`) before them. -/
def lockHeld (key : String) : Bool → List Call → Bool
  | h, [] => h
  | h, Call.Lock k :: t => lockHeld key (if k = key then true else h) t
  | h, Call.Unlock k :: t => lockHeld key (if k = key then false else h) t
  | h, _ :: t => lockHeld key h t

/-- Lock and Unlock calls of a call list are balanced: for every key as many
Lock as Unlock calls, at most one of each, an Unlock after every Lock and a
Lock before every Unlock. -/
def LockBalanced (t : List Call) : Prop :=
  ∀ k : String,
    t.count (Call.Lock k) = t.count (Call.Unlock k)
    ∧ t.count (Call.Lock k) ≤ 1
    ∧ (∀ pre post, t = pre ++ Call.Lock k :: post → Call.Unlock k ∈ post)
    ∧ (∀ pre post, t = pre ++ Call.Unlock k :: post → Call.Lock k ∈ pre)

/-- In a call list every `regenerate` and every `Put` happens while the lock of
`key` is held and is followed by the `Unlock` of `key`, and every `Get`
happens while the lock of `key` is not held. -/
def WritesUnderLock (key : String) (t : List Call) : Prop :=
  ∀ pre c post, t = pre ++ c :: post →
    ((c = Call.regenerate ∨ ∃ k d e, c = Call.Put k d e) →
      lockHeld key false pre = true ∧ Call.Lock key ∈ pre ∧ Call.Unlock key ∈ post)
    ∧ ((∃ k, c = Call.Get k) → lockHeld key false pre = false)

/-- The call `c.engine.Expire(key)`. -/
def callExpire (E : Engine σ) (w : World σ) (key : String) : World σ × Err :=
  (((w.log (Call.Expire key)).setEng (E.Expire w.eng key).1), (E.Expire w.eng key).2)

/-- The method `cacher.Expire` (cache.go lines 99-101): `return c.engine.Expire(key)`. -/
def Expire (E : Engine σ) (w : World σ) (key : String) : World σ × Err :=
  callExpire E w key

/-- One call of `Get` (cache.go lines 82-96) with everything that shares
variables with it: the arguments the goroutine captured, the variables
`data` and `err` of `Get` (lines 83-84) that the returned closure reads,
whether the channel `ch` has been closed, and the named results of the
underlying `get` call, which are the variables the job closure of that `get`
assigns to (line 56). The two pairs are different variables: line 89 copies
what `get` returns into `data` and `err` of `Get`. -/
structure Session (σ : Type) where
  world : World σ
  key : String
  expires : Time
  regenerate : Regen σ
  data : Bytes
  err : Err
  closed : Bool
  captured : Bytes × Err

/-- The method `cacher.Get` up to its return (lines 83-86 and 92): `data` and
`err` are nil, `ch` is open, the goroutine has been started and has not run. -/
def Get (w : World σ) (key : String) (expires : Time) (regenerate : Regen σ) : Session σ :=
  ⟨w, key, expires, regenerate, none, none, false, (none, none)⟩

/-- The goroutine started by `Get` (lines 87-90), run to its end: it assigns
the results of `c.get` to `data` and `err`, then the deferred `close(ch)`
runs. It is started once, so it does nothing once `ch` is closed. -/
def Session.read (E : Engine σ) (s : Session σ) : Session σ :=
  if s.closed then s
  else
    ⟨(get E s.world s.key s.expires s.regenerate).1, s.key, s.expires, s.regenerate,
      (get E s.world s.key s.expires s.regenerate).2.1,
      (get E s.world s.key s.expires s.regenerate).2.2, true,
      (get E s.world s.key s.expires s.regenerate).2⟩

/-- The closure `Get` returns (lines 92-95): the receive `<-ch` goes through
once `ch` is closed, and then the closure returns `data, err`; `none` stands
for a caller still waiting on the open channel. -/
def Session.materialise (s : Session σ) : Option (Bytes × Err) :=
  if s.closed then some (s.data, s.err) else none

/-- A worker runs the job `j`: what the closure assigns (line 56) lands in the
named results of `get`; `data`, `err` and `ch` of `Get` are not in its scope. -/
def Session.work (E : Engine σ) (s : Session σ) (j : Job σ) : Session σ :=
  ⟨(j.run E s.world).1, s.key, s.expires, s.regenerate, s.data, s.err, s.closed,
    (j.run E s.world).2⟩

/-- What can happen to a session: the goroutine runs, the caller materialises
the handle, or a worker runs a job. -/
inductive Step (σ : Type) where
  | read
  | materialise
  | work (j : Job σ)

/-- Whether a step is a materialisation. -/
def Step.isMaterialise : Step σ → Bool
  | Step.materialise => true
  | _ => false

/-- Run a schedule of steps; the second component lists what the successive
materialisations returned. -/
def Session.run (E : Engine σ) :
    Session σ → List (Step σ) → Session σ × List (Option (Bytes × Err))
  | s, [] => (s, [])
  | s, Step.read :: t => Session.run E (s.read E) t
  | s, Step.materialise :: t => ((Session.run E s t).1, s.materialise :: (Session.run E s t).2)
  | s, Step.work j :: t => Session.run E (s.work E j) t

/-- The engine `E` with the error of every `Get` replaced by `e`. -/
def Engine.withGetErr (E : Engine σ) (e : Err) : Engine σ :=
  ⟨E.Exists, fun s k => ((E.Get s k).1, ((E.Get s k).2.1, e)), E.Put, E.IsExpired, E.IsLocked,
    E.Lock, E.Unlock, E.Expire⟩

/-- The engine `E` with the error of every `Put` replaced by what `f` says. -/
def Engine.withPutErr (E : Engine σ) (f : σ → String → Bytes → Time → Err) : Engine σ :=
  ⟨E.Exists, E.Get, fun s k d t => ((E.Put s k d t).1, f s k d t), E.IsExpired, E.IsLocked,
    E.Lock, E.Unlock, E.Expire⟩

/-- The key argument of a logged call; `regenerate` and a send have none. -/
def Call.key? : Call → Option String
  | Call.Exists k => some k
  | Call.Get k => some k
  | Call.Put k _ _ => some k
  | Call.IsExpired k => some k
  | Call.IsLocked k => some k
  | Call.Lock k => some k
  | Call.Unlock k => some k
  | Call.Expire k => some k
  | Call.regenerate => none
  | Call.send => none

/-- The engine state after replaying logged calls from the state `s`: each
engine call applies its method, `regenerate` applies the regenerate function,
a send leaves the engine alone. -/
def replay (E : Engine σ) (regenerate : Regen σ) : σ → List Call → σ
  | s, [] => s
  | s, Call.Exists k :: t => replay E regenerate (E.Exists s k).1 t
  | s, Call.Get k :: t => replay E regenerate (E.Get s k).1 t
  | s, Call.Put k d e :: t => replay E regenerate (E.Put s k d e).1 t
  | s, Call.IsExpired k :: t => replay E regenerate (E.IsExpired s k).1 t
  | s, Call.IsLocked k :: t => replay E regenerate (E.IsLocked s k).1 t
  | s, Call.Lock k :: t => replay E regenerate (E.Lock s k) t
  | s, Call.Unlock k :: t => replay E regenerate (E.Unlock s k) t
  | s, Call.Expire k :: t => replay E regenerate (E.Expire s k).1 t
  | s, Call.regenerate :: t => replay E regenerate (regenerate s).1 t
  | s, Call.send :: t => replay E regenerate s t

/-- The observation `obs` of the engine state is untouched by every engine
method called with the key `key` and by the regenerate function. -/
def Engine.Untouched {α : Type} (E : Engine σ) (key : String) (regenerate : Regen σ)
    (obs : σ → α) : Prop :=
  (∀ s, obs (E.Exists s key).1 = obs s)
  ∧ (∀ s, obs (E.Get s key).1 = obs s)
  ∧ (∀ s d t, obs (E.Put s key d t).1 = obs s)
  ∧ (∀ s, obs (E.IsExpired s key).1 = obs s)
  ∧ (∀ s, obs (E.IsLocked s key).1 = obs s)
  ∧ (∀ s, obs (E.Lock s key) = obs s)
  ∧ (∀ s, obs (E.Unlock s key) = obs s)
  ∧ (∀ s, obs (E.Expire s key).1 = obs s)
  ∧ (∀ s, obs (regenerate s).1 = obs s)

/-- What the in-memory engine holds under "b" and whether the lock of "b" is held. -/
def observeB (s : Mem) : Option (Bytes × Time) × Bool :=
  (s.entries.lookup "b", decide ("b" ∈ s.locked))

/-- An engine at time 10 holding a stale "v1" under "a" and a fresh "v2" under
"b", with the lock of "b" held. -/
def memTwoKeys : World Mem := ⟨⟨10, [("a", (v1, 9)), ("b", (v2, 20))], ["b"]⟩, [], []⟩

end cacher

namespace cacher

variable {σ : Type}

/-- What `get` issued is one of seven call sequences, one for each of its returns. -/
theorem get_issued_cases (E : Engine σ) (w : World σ) (key : String) (expires : Time)
    (regenerate : Regen σ) :
    issued w (get E w key expires regenerate).1 = [Call.Exists key, Call.Get key]
    ∨ issued w (get E w key expires regenerate).1
        = [Call.Exists key, Call.Get key, Call.IsExpired key]
    ∨ issued w (get E w key expires regenerate).1
        = [Call.Exists key, Call.Get key, Call.IsExpired key, Call.IsLocked key]
    ∨ issued w (get E w key expires regenerate).1
        = [Call.Exists key, Call.Get key, Call.IsExpired key, Call.IsLocked key, Call.send]
    ∨ issued w (get E w key expires regenerate).1 = [Call.Exists key, Call.IsLocked key]
    ∨ issued w (get E w key expires regenerate).1
        = [Call.Exists key, Call.IsLocked key, Call.Lock key, Call.regenerate, Call.Unlock key]
    ∨ ∃ d, issued w (get E w key expires regenerate).1
        = [Call.Exists key, Call.IsLocked key, Call.Lock key, Call.regenerate,
            Call.Put key d expires, Call.Unlock key] := by
  simp only [get]
  split_ifs <;>
    simp [callExists, callGet, callIsExpired, callIsLocked, callLock, callUnlock, callPut,
      callRegenerate, sendJob, World.log, World.setEng, issued]

/-- What a job issued when run: `Lock`, `regenerate`, `Put`, `Unlock`. -/
theorem run_issued (E : Engine σ) (w : World σ) (j : Job σ) :
    issued w (j.run E w).1
      = [Call.Lock j.key, Call.regenerate,
          Call.Put j.key (j.regenerate (E.Lock w.eng j.key)).2.1 j.expires,
          Call.Unlock j.key] := by
  simp [Job.run, callLock, callUnlock, callPut, callRegenerate, World.log, World.setEng, issued]

/-- The job queue after `get`: unchanged, or longer by the one job of this call. -/
theorem get_jobQueue_cases (E : Engine σ) (w : World σ) (key : String) (expires : Time)
    (regenerate : Regen σ) :
    (get E w key expires regenerate).1.jobQueue = w.jobQueue
    ∨ (get E w key expires regenerate).1.jobQueue
        = w.jobQueue ++ [⟨key, expires, regenerate⟩] := by
  simp only [get]
  split_ifs <;>
    simp [callExists, callGet, callIsExpired, callIsLocked, callLock, callUnlock, callPut,
      callRegenerate, sendJob, World.log, World.setEng]

/-- No call list splits the empty list around a call. -/
theorem split_nil (P : List Call → Call → List Call → Prop) :
    (∀ pre c post, ([] : List Call) = pre ++ c :: post → P pre c post) ↔ True := by
  simp

/-- The splits of `a :: l` around a call: the one at the head, and the splits of `l`. -/
theorem split_cons (P : List Call → Call → List Call → Prop) (a : Call) (l : List Call) :
    (∀ pre c post, a :: l = pre ++ c :: post → P pre c post)
      ↔ (P [] a l ∧ ∀ pre c post, l = pre ++ c :: post → P (a :: pre) c post) := by
  constructor
  · intro h
    exact ⟨h [] a l rfl, fun pre c post e => h (a :: pre) c post (by rw [e]; rfl)⟩
  · rintro ⟨h0, h1⟩ pre c post e
    cases pre with
    | nil =>
      simp only [List.nil_append, List.cons.injEq] at e
      obtain ⟨rfl, rfl⟩ := e
      exact h0
    | cons b pre =>
      simp only [List.cons_append, List.cons.injEq] at e
      obtain ⟨rfl, rfl⟩ := e
      exact h1 pre c post rfl

/-- No call list splits the empty list around the call `x`. -/
theorem splitAt_nil (x : Call) (P : List Call → List Call → Prop) :
    (∀ pre post, ([] : List Call) = pre ++ x :: post → P pre post) ↔ True := by
  simp

/-- The splits of `a :: l` around the call `x`: the one at the head when `a` is
`x`, and the splits of `l`. -/
theorem splitAt_cons (x : Call) (P : List Call → List Call → Prop) (a : Call) (l : List Call) :
    (∀ pre post, a :: l = pre ++ x :: post → P pre post)
      ↔ ((a = x → P [] l) ∧ ∀ pre post, l = pre ++ x :: post → P (a :: pre) post) := by
  constructor
  · intro h
    exact ⟨fun e => h [] l (by rw [e]; rfl), fun pre post e => h (a :: pre) post (by rw [e]; rfl)⟩
  · rintro ⟨h0, h1⟩ pre post e
    cases pre with
    | nil =>
      simp only [List.nil_append, List.cons.injEq] at e
      obtain ⟨rfl, rfl⟩ := e
      exact h0 rfl
    | cons b pre =>
      simp only [List.cons_append, List.cons.injEq] at e
      obtain ⟨rfl, rfl⟩ := e
      exact h1 pre post rfl

end cacher

namespace cacher

variable {σ : Type}

/-- Stale read, unlocked, without interference: when `Exists(key)` answers
true, `Get(key)` answers `(v, nil)`, `IsExpired(key)` answers true and
`IsLocked(key)` answers false, and no worker runs the sent job before `get`
returns, `get` returns `(v, nil)`, the job queue grows by exactly the one job
of this call, the calls it issues are `Exists`, `Get`, `IsExpired`,
`IsLocked` and one send, and none of them is `regenerate`, `Lock`, `Unlock`
or `Put`. -/
theorem get_stale_unlocked (E : Engine σ) (w : World σ) (key : String) (expires : Time)
    (regenerate : Regen σ) (v : Bytes)
    (hExists : (E.Exists w.eng key).2 = true)
    (hGet : (E.Get (E.Exists w.eng key).1 key).2 = (v, none))
    (hExpired : (E.IsExpired (E.Get (E.Exists w.eng key).1 key).1 key).2 = true)
    (hLocked :
      (E.IsLocked (E.IsExpired (E.Get (E.Exists w.eng key).1 key).1 key).1 key).2 = false) :
    let out := get E w key expires regenerate
    out.2 = (v, none)
    ∧ out.1.jobQueue = w.jobQueue ++ [⟨key, expires, regenerate⟩]
    ∧ issued w out.1
        = [Call.Exists key, Call.Get key, Call.IsExpired key, Call.IsLocked key, Call.send]
    ∧ (issued w out.1).count Call.send = 1
    ∧ Call.regenerate ∉ issued w out.1
    ∧ (∀ k, Call.Lock k ∉ issued w out.1)
    ∧ (∀ k, Call.Unlock k ∉ issued w out.1)
    ∧ (∀ k d e, Call.Put k d e ∉ issued w out.1) := by
  simp [get, callExists, callGet, callIsExpired, callIsLocked, sendJob, World.log, World.setEng,
    issued, hExists, hGet, hExpired, hLocked]

/-- The stale read without interference on the in-memory engine holding a stale,
unlocked "v1". -/
theorem get_stale_unlocked_witness :
    (get memEngine memStale "a" 20 regenV2).2 = (v1, none)
    ∧ issued memStale (get memEngine memStale "a" 20 regenV2).1
        = [Call.Exists "a", Call.Get "a", Call.IsExpired "a", Call.IsLocked "a", Call.send] :=
  have h := get_stale_unlocked memEngine memStale "a" 20 regenV2 v1
    (by decide) (by decide) (by decide) (by decide)
  ⟨h.1, h.2.2.1⟩

/-- On the quiet schedule `getScheduled` is `get`. -/
theorem getScheduled_quiet (E : Engine σ) (w : World σ) (key : String) (expires : Time)
    (regenerate : Regen σ) :
    getScheduled E w key expires regenerate Sched.quiet
      = some (get E w key expires regenerate) := by
  simp only [getScheduled, get]
  split_ifs <;> rfl

/-- On the paths that send nothing the schedule plays no part: when `get` left
the job queue as it was, `getScheduled` is `get` under every schedule. -/
theorem getScheduled_of_no_send (E : Engine σ) (w : World σ) (key : String) (expires : Time)
    (regenerate : Regen σ) (sched : Sched)
    (h : (get E w key expires regenerate).1.jobQueue = w.jobQueue) :
    getScheduled E w key expires regenerate sched
      = some (get E w key expires regenerate) := by
  simp only [getScheduled, get] at h ⊢
  split_ifs at h ⊢ <;> first
    | rfl
    | (exfalso
       have hl := congrArg List.length h
       simp [sendJob, callExists, callGet, callIsExpired, callIsLocked, World.log,
         World.setEng] at hl)

/-- On the stale, unlocked path, when a worker runs the sent job before the
`return` of line 59, `get` returns the pair `regenerate` returned, not the
pair `Engine.Get` answered. -/
theorem getScheduled_overlapped (E : Engine σ) (w : World σ) (key : String) (expires : Time)
    (regenerate : Regen σ) (v : Bytes)
    (hExists : (E.Exists w.eng key).2 = true)
    (hGet : (E.Get (E.Exists w.eng key).1 key).2 = (v, none))
    (hExpired : (E.IsExpired (E.Get (E.Exists w.eng key).1 key).1 key).2 = true)
    (hLocked :
      (E.IsLocked (E.IsExpired (E.Get (E.Exists w.eng key).1 key).1 key).1 key).2 = false) :
    (getScheduled E w key expires regenerate Sched.overlapped).map (fun out => out.2)
      = some (regenerate (E.Lock
          (E.IsLocked (E.IsExpired (E.Get (E.Exists w.eng key).1 key).1 key).1 key).1 key)).2
    ∧ getScheduled E w key expires regenerate Sched.blocked = none := by
  simp [getScheduled, Job.run, callExists, callGet, callIsExpired, callIsLocked, callLock,
    callUnlock, callPut, callRegenerate, World.log, World.setEng, hExists, hGet, hExpired,
    hLocked]

/-- C1 (stale read, unlocked), evaluated on the in-memory engine holding a
stale, unlocked "v1" with a regenerate function returning "v2": `Exists`
answers true, `Get` answers ("v1", nil), `IsExpired` answers true and
`IsLocked` answers false, as the claim asks. When no worker interferes `get`
returns ("v1", nil) after `Exists`, `Get`, `IsExpired`, `IsLocked` and one
send. When a worker runs the sent job before the bare `return` of line 59,
the job's assignment of line 56 has overwritten the named results and `get`
returns ("v2", nil), regenerate's pair, instead of the stale pair. When the
channel is full and no worker receives, `get` has not returned at all. -/
theorem get_stale_unlocked_returns_regenerated :
    (memEngine.Exists memStale.eng "a").2 = true
    ∧ (memEngine.Get memStale.eng "a").2 = (v1, none)
    ∧ (memEngine.IsExpired memStale.eng "a").2 = true
    ∧ (memEngine.IsLocked memStale.eng "a").2 = false
    ∧ (getScheduled memEngine memStale "a" 20 regenV2 Sched.quiet).map (fun out => out.2)
        = some (v1, none)
    ∧ (getScheduled memEngine memStale "a" 20 regenV2 Sched.quiet).map
        (fun out => issued memStale out.1)
        = some [Call.Exists "a", Call.Get "a", Call.IsExpired "a", Call.IsLocked "a", Call.send]
    ∧ (getScheduled memEngine memStale "a" 20 regenV2 Sched.overlapped).map (fun out => out.2)
        = some (v2, none)
    ∧ (getScheduled memEngine memStale "a" 20 regenV2 Sched.overlapped).map
        (fun out => issued memStale out.1)
        = some [Call.Exists "a", Call.Get "a", Call.IsExpired "a", Call.IsLocked "a", Call.send,
            Call.Lock "a", Call.regenerate, Call.Put "a" v2 20, Call.Unlock "a"]
    ∧ (getScheduled memEngine memStale "a" 20 regenV2 Sched.blocked).map (fun out => out.2)
        = none := by
  decide

/-- C2 (cold read): when `Exists(key)` answers false, `IsLocked(key)` answers
false, `regenerate` returns `(v, nil)` and `Put` returns no error, `get`
returns `(v, nil)`, calls `regenerate` exactly once, calls
`Put(key, v, expires)` exactly once with the expiry it was given and no
other `Put`, and sends no job; the engine state is the one these calls
produce in this order. -/
theorem get_cold (E : Engine σ) (w : World σ) (key : String) (expires : Time)
    (regenerate : Regen σ) (v : Bytes)
    (hExists : (E.Exists w.eng key).2 = false)
    (hLocked : (E.IsLocked (E.Exists w.eng key).1 key).2 = false)
    (hRegen : (regenerate (E.Lock (E.IsLocked (E.Exists w.eng key).1 key).1 key)).2 = (v, none))
    (hPut : (E.Put (regenerate (E.Lock (E.IsLocked (E.Exists w.eng key).1 key).1 key)).1
      key v expires).2 = none) :
    let out := get E w key expires regenerate
    out.2 = (v, none)
    ∧ issued w out.1
        = [Call.Exists key, Call.IsLocked key, Call.Lock key, Call.regenerate,
            Call.Put key v expires, Call.Unlock key]
    ∧ (issued w out.1).count Call.regenerate = 1
    ∧ (issued w out.1).count (Call.Put key v expires) = 1
    ∧ (∀ k d e, Call.Put k d e ∈ issued w out.1 → k = key ∧ d = v ∧ e = expires)
    ∧ Call.send ∉ issued w out.1
    ∧ out.1.jobQueue = w.jobQueue
    ∧ out.1.eng
        = E.Unlock (E.Put (regenerate (E.Lock (E.IsLocked (E.Exists w.eng key).1 key).1 key)).1
            key v expires).1 key := by
  simp [get, callExists, callIsLocked, callLock, callUnlock, callPut, callRegenerate, World.log,
    World.setEng, issued, hExists, hLocked, hRegen, hPut]

/-- Witness of C2 on the empty in-memory engine. -/
theorem get_cold_witness :
    (get memEngine memEmpty "a" 20 regenV2).2 = (v2, none)
    ∧ (issued memEmpty (get memEngine memEmpty "a" 20 regenV2).1).count
        (Call.Put "a" v2 20) = 1 :=
  have h := get_cold memEngine memEmpty "a" 20 regenV2 v2
    (by decide) (by decide) (by decide) (by decide)
  ⟨h.1, h.2.2.2.1⟩

/-- C3 (warm fresh read): when `Exists(key)` answers true, `Get(key)` answers
`(v, nil)` and `IsExpired(key)` answers false, `get` returns `(v, nil)`
without asking `IsLocked`, calls neither `regenerate` nor `Lock`, `Unlock` or
`Put`, sends no job, and leaves the engine in the state its three read calls
produced; on an engine whose read calls keep the state, the engine state is
unchanged and `Get(key)` still answers `(v, nil)`. -/
theorem get_warm_fresh (E : Engine σ) (w : World σ) (key : String) (expires : Time)
    (regenerate : Regen σ) (v : Bytes)
    (hExists : (E.Exists w.eng key).2 = true)
    (hGet : (E.Get (E.Exists w.eng key).1 key).2 = (v, none))
    (hExpired : (E.IsExpired (E.Get (E.Exists w.eng key).1 key).1 key).2 = false) :
    let out := get E w key expires regenerate
    out.2 = (v, none)
    ∧ issued w out.1 = [Call.Exists key, Call.Get key, Call.IsExpired key]
    ∧ Call.regenerate ∉ issued w out.1
    ∧ Call.send ∉ issued w out.1
    ∧ out.1.jobQueue = w.jobQueue
    ∧ (∀ k, Call.IsLocked k ∉ issued w out.1)
    ∧ (∀ k, Call.Lock k ∉ issued w out.1)
    ∧ (∀ k, Call.Unlock k ∉ issued w out.1)
    ∧ (∀ k d e, Call.Put k d e ∉ issued w out.1)
    ∧ out.1.eng = (E.IsExpired (E.Get (E.Exists w.eng key).1 key).1 key).1
    ∧ (E.ReadsKeepState → out.1.eng = w.eng ∧ (E.Get out.1.eng key).2 = (v, none)) := by
  have hout : (get E w key expires regenerate).1.eng
      = (E.IsExpired (E.Get (E.Exists w.eng key).1 key).1 key).1 := by
    simp [get, callExists, callGet, callIsExpired, World.log, World.setEng, hExists, hGet,
      hExpired]
  refine ⟨?_, ?_, ?_, ?_, ?_, ?_, ?_, ?_, ?_, hout, ?_⟩
  all_goals try
    simp [get, callExists, callGet, callIsExpired, World.log, World.setEng, issued, hExists,
      hGet, hExpired]
  intro hro
  obtain ⟨h1, h2, h3⟩ := hro
  refine ⟨by rw [h3, h2, h1], ?_⟩
  rw [h3, h2]
  exact hGet

/-- Witness of C3 on the in-memory engine holding a fresh "v1". -/
theorem get_warm_fresh_witness :
    (get memEngine memFresh "a" 20 regenV2).2 = (v1, none)
    ∧ (get memEngine memFresh "a" 20 regenV2).1.eng = memFresh.eng :=
  have h := get_warm_fresh memEngine memFresh "a" 20 regenV2 v1
    (by decide) (by decide) (by decide)
  ⟨h.1, (h.2.2.2.2.2.2.2.2.2.2 ⟨fun _ _ => rfl, fun _ _ => rfl, fun _ _ => rfl⟩).1⟩

/-- C4 (stale read, already locked): when `Exists(key)` answers true,
`Get(key)` answers `(v, nil)`, `IsExpired(key)` answers true and
`IsLocked(key)` answers true, `get` returns the stale `(v, nil)`, calls
neither `regenerate` nor `Lock`, `Unlock` or `Put`, and sends no job. -/
theorem get_stale_locked (E : Engine σ) (w : World σ) (key : String) (expires : Time)
    (regenerate : Regen σ) (v : Bytes)
    (hExists : (E.Exists w.eng key).2 = true)
    (hGet : (E.Get (E.Exists w.eng key).1 key).2 = (v, none))
    (hExpired : (E.IsExpired (E.Get (E.Exists w.eng key).1 key).1 key).2 = true)
    (hLocked :
      (E.IsLocked (E.IsExpired (E.Get (E.Exists w.eng key).1 key).1 key).1 key).2 = true) :
    let out := get E w key expires regenerate
    out.2 = (v, none)
    ∧ issued w out.1 = [Call.Exists key, Call.Get key, Call.IsExpired key, Call.IsLocked key]
    ∧ Call.regenerate ∉ issued w out.1
    ∧ Call.send ∉ issued w out.1
    ∧ out.1.jobQueue = w.jobQueue
    ∧ (∀ k, Call.Lock k ∉ issued w out.1)
    ∧ (∀ k, Call.Unlock k ∉ issued w out.1)
    ∧ (∀ k d e, Call.Put k d e ∉ issued w out.1) := by
  simp [get, callExists, callGet, callIsExpired, callIsLocked, World.log, World.setEng, issued,
    hExists, hGet, hExpired, hLocked]

/-- Witness of C4 on the in-memory engine holding a stale "v1" whose lock is held. -/
theorem get_stale_locked_witness :
    (get memEngine memStaleLocked "a" 20 regenV2).2 = (v1, none)
    ∧ Call.regenerate ∉ issued memStaleLocked (get memEngine memStaleLocked "a" 20 regenV2).1 :=
  have h := get_stale_locked memEngine memStaleLocked "a" 20 regenV2 v1
    (by decide) (by decide) (by decide) (by decide)
  ⟨h.1, h.2.2.1⟩

/-- C5 (absent, already locked): when `Exists(key)` answers false and
`IsLocked(key)` answers true, `get` returns `(nil, nil)`, issues only the
calls `Exists` and `IsLocked`, so neither `regenerate` nor `Get`, `Lock`,
`Unlock` or `Put`, and sends no job. -/
theorem get_absent_locked (E : Engine σ) (w : World σ) (key : String) (expires : Time)
    (regenerate : Regen σ)
    (hExists : (E.Exists w.eng key).2 = false)
    (hLocked : (E.IsLocked (E.Exists w.eng key).1 key).2 = true) :
    let out := get E w key expires regenerate
    out.2 = (none, none)
    ∧ issued w out.1 = [Call.Exists key, Call.IsLocked key]
    ∧ Call.regenerate ∉ issued w out.1
    ∧ Call.send ∉ issued w out.1
    ∧ out.1.jobQueue = w.jobQueue
    ∧ (∀ k, Call.Get k ∉ issued w out.1)
    ∧ (∀ k, Call.Lock k ∉ issued w out.1)
    ∧ (∀ k, Call.Unlock k ∉ issued w out.1)
    ∧ (∀ k d e, Call.Put k d e ∉ issued w out.1) := by
  simp [get, callExists, callIsLocked, World.log, World.setEng, issued, hExists, hLocked]

/-- Witness of C5 on the empty in-memory engine in which the lock of "a" is held. -/
theorem get_absent_locked_witness :
    (get memEngine memAbsentLocked "a" 20 regenV2).2 = (none, none)
    ∧ issued memAbsentLocked (get memEngine memAbsentLocked "a" 20 regenV2).1
        = [Call.Exists "a", Call.IsLocked "a"] :=
  have h := get_absent_locked memEngine memAbsentLocked "a" 20 regenV2 (by decide) (by decide)
  ⟨h.1, h.2.1⟩

/-- C6 (regenerate error on cold read): when `Exists(key)` answers false,
`IsLocked(key)` answers false and `regenerate` returns `(d, e)` with `e` a
non-nil error, `get` returns `(d, e)`, never calls `Put`, sends no job, and
its last call is `Unlock(key)`; on an engine in which `Exists`, `IsLocked`,
`Lock`, `Unlock` and the regenerate function keep an absent key absent, the
key is still absent afterwards. -/
theorem get_cold_regenerate_error (E : Engine σ) (w : World σ) (key : String) (expires : Time)
    (regenerate : Regen σ) (d : Bytes) (e : String)
    (hExists : (E.Exists w.eng key).2 = false)
    (hLocked : (E.IsLocked (E.Exists w.eng key).1 key).2 = false)
    (hRegen :
      (regenerate (E.Lock (E.IsLocked (E.Exists w.eng key).1 key).1 key)).2 = (d, some e)) :
    let out := get E w key expires regenerate
    out.2 = (d, some e)
    ∧ issued w out.1
        = [Call.Exists key, Call.IsLocked key, Call.Lock key, Call.regenerate, Call.Unlock key]
    ∧ (∀ k b t, Call.Put k b t ∉ issued w out.1)
    ∧ (issued w out.1).getLast? = some (Call.Unlock key)
    ∧ out.1.jobQueue = w.jobQueue
    ∧ out.1.eng
        = E.Unlock (regenerate (E.Lock (E.IsLocked (E.Exists w.eng key).1 key).1 key)).1 key
    ∧ (E.KeepsAbsent key (fun s => (E.Exists s key).1) →
        E.KeepsAbsent key (fun s => (E.IsLocked s key).1) →
        E.KeepsAbsent key (fun s => E.Lock s key) →
        E.KeepsAbsent key (fun s => (regenerate s).1) →
        E.KeepsAbsent key (fun s => E.Unlock s key) →
        (E.Exists out.1.eng key).2 = false) := by
  have hout : (get E w key expires regenerate).1.eng
      = E.Unlock (regenerate (E.Lock (E.IsLocked (E.Exists w.eng key).1 key).1 key)).1 key := by
    simp [get, callExists, callIsLocked, callLock, callUnlock, callRegenerate, World.log,
      World.setEng, hExists, hLocked, hRegen]
  refine ⟨?_, ?_, ?_, ?_, ?_, hout, ?_⟩
  · simp [get, callExists, callIsLocked, callLock, callUnlock, callRegenerate, World.log,
      World.setEng, hExists, hLocked, hRegen]
  · simp [get, callExists, callIsLocked, callLock, callUnlock, callRegenerate, World.log,
      World.setEng, issued, hExists, hLocked, hRegen]
  · simp [get, callExists, callIsLocked, callLock, callUnlock, callRegenerate, World.log,
      World.setEng, issued, hExists, hLocked, hRegen]
  · simp [get, callExists, callIsLocked, callLock, callUnlock, callRegenerate, World.log,
      World.setEng, issued, hExists, hLocked, hRegen]
  · simp [get, callExists, callIsLocked, callLock, callUnlock, callRegenerate, World.log,
      World.setEng, hExists, hLocked, hRegen]
  · intro k1 k2 k3 k4 k5
    rw [hout]
    exact k5 _ (k4 _ (k3 _ (k2 _ (k1 _ hExists))))

/-- Witness of C6 on the empty in-memory engine with a failing regenerate function. -/
theorem get_cold_regenerate_error_witness :
    (get memEngine memEmpty "a" 20 regenFail).2 = (none, some "regenerate failed")
    ∧ (memEngine.Exists (get memEngine memEmpty "a" 20 regenFail).1.eng "a").2 = false :=
  have h := get_cold_regenerate_error memEngine memEmpty "a" 20 regenFail none
    "regenerate failed" (by decide) (by decide) (by decide)
  ⟨h.1, h.2.2.2.2.2.2 (fun _ h => h) (fun _ h => h) (fun _ h => h) (fun _ h => h)
    (fun _ h => h)⟩

/-- C7 (regeneration error in a background job), evaluated on the in-memory
engine holding a stale, unlocked "v1": `get` with a failing regenerate
function returns "v1" and sends one job; running that job calls
`Put("a", nil, 20)` although `regenerate` returned an error, and `Get("a")`,
which answered "v1" before the job ran, answers nil bytes afterwards. -/
theorem job_regenerate_error_still_puts :
    (memEngine.Get memStale.eng "a").2 = (v1, none)
    ∧ (get memEngine memStale "a" 20 regenFail).2 = (v1, none)
    ∧ (get memEngine memStale "a" 20 regenFail).1.jobQueue = [⟨"a", 20, regenFail⟩]
    ∧ (get memEngine memStale "a" 20 regenFail).1.jobQueue.map
        (fun j => issued (get memEngine memStale "a" 20 regenFail).1
          (j.run memEngine (get memEngine memStale "a" 20 regenFail).1).1)
        = [[Call.Lock "a", Call.regenerate, Call.Put "a" none 20, Call.Unlock "a"]]
    ∧ (get memEngine memStale "a" 20 regenFail).1.jobQueue.map
        (fun j => (memEngine.Get
          (j.run memEngine (get memEngine memStale "a" 20 regenFail).1).1.eng "a").2)
        = [(none, none)] :=
  ⟨by decide, by decide, rfl, by decide, by decide⟩

/-- C8 (the enqueued job): the job that `get(key, expires, regenerate)` sent
on the job queue, run later from any state, issues exactly `Lock(key)`,
`regenerate()`, `Put(key, d, expires)`, `Unlock(key)` in that order, with `d`
the bytes `regenerate` returned and `expires` the expiry passed to `get`;
the engine state goes through these four calls in that order. -/
theorem enqueued_job_run (E : Engine σ) (w : World σ) (key : String) (expires : Time)
    (regenerate : Regen σ) (j : Job σ) (wj : World σ)
    (hj : (get E w key expires regenerate).1.jobQueue = w.jobQueue ++ [j]) :
    let out := j.run E wj
    issued wj out.1
      = [Call.Lock key, Call.regenerate,
          Call.Put key (regenerate (E.Lock wj.eng key)).2.1 expires, Call.Unlock key]
    ∧ out.1.eng
        = E.Unlock (E.Put (regenerate (E.Lock wj.eng key)).1 key
            (regenerate (E.Lock wj.eng key)).2.1 expires).1 key
    ∧ out.2 = (regenerate (E.Lock wj.eng key)).2
    ∧ out.1.jobQueue = wj.jobQueue := by
  have hjob : j = ⟨key, expires, regenerate⟩ := by
    rcases get_jobQueue_cases E w key expires regenerate with h | h
    · rw [h] at hj
      have := congrArg List.length hj
      simp at this
    · rw [h] at hj
      simpa using (List.append_cancel_left hj).symm
  subst hjob
  simp [Job.run, callLock, callUnlock, callPut, callRegenerate, World.log, World.setEng, issued]

/-- Witness of C8: the job sent by a stale read on the in-memory engine, run from
the state that read left behind. -/
theorem enqueued_job_run_witness :
    issued (get memEngine memStale "a" 20 regenV2).1
      ((⟨"a", 20, regenV2⟩ : Job Mem).run memEngine (get memEngine memStale "a" 20 regenV2).1).1
      = [Call.Lock "a", Call.regenerate, Call.Put "a" v2 20, Call.Unlock "a"] :=
  (enqueued_job_run memEngine memStale "a" 20 regenV2 ⟨"a", 20, regenV2⟩
    (get memEngine memStale "a" 20 regenV2).1 rfl).1

/-- C9 (Lock/Unlock balance): for every engine, every regenerate function and
every starting state, so for every outcome of `regenerate` and `Put`, the
calls issued by `get` and the calls issued by a job are balanced: for every
key as many `Lock` as `Unlock` calls, at most one of each, an `Unlock` after
every `Lock`, a `Lock` before every `Unlock`; the only key locked or
unlocked is the key of the call; and the engine state afterwards is the one
the issued calls, `Lock` and `Unlock` included, produce in their order. -/
theorem lock_unlock_balanced (E : Engine σ) (w : World σ) (key : String) (expires : Time)
    (regenerate : Regen σ) (j : Job σ) (wj : World σ) :
    LockBalanced (issued w (get E w key expires regenerate).1)
    ∧ (∀ k, Call.Lock k ∈ issued w (get E w key expires regenerate).1 → k = key)
    ∧ (∀ k, Call.Unlock k ∈ issued w (get E w key expires regenerate).1 → k = key)
    ∧ LockBalanced (issued wj (j.run E wj).1)
    ∧ (issued wj (j.run E wj).1).count (Call.Lock j.key) = 1
    ∧ (issued wj (j.run E wj).1).count (Call.Unlock j.key) = 1
    ∧ (get E w key expires regenerate).1.eng
        = replay E regenerate w.eng (issued w (get E w key expires regenerate).1)
    ∧ (j.run E wj).1.eng = replay E j.regenerate wj.eng (issued wj (j.run E wj).1) := by
  refine ⟨?_, ?_, ?_, ?_, ?_, ?_, ?_, ?_⟩
  · rcases get_issued_cases E w key expires regenerate with h | h | h | h | h | h | ⟨d, h⟩ <;>
      rw [h] <;> unfold LockBalanced <;> intro k <;>
      simp only [splitAt_cons, splitAt_nil] <;>
      by_cases hk : key = k <;>
      simp [List.count_cons, hk]
  · rcases get_issued_cases E w key expires regenerate with h | h | h | h | h | h | ⟨d, h⟩ <;>
      rw [h] <;> simp [eq_comm]
  · rcases get_issued_cases E w key expires regenerate with h | h | h | h | h | h | ⟨d, h⟩ <;>
      rw [h] <;> simp [eq_comm]
  · rw [run_issued]
    unfold LockBalanced
    intro k
    simp only [splitAt_cons, splitAt_nil]
    by_cases hk : j.key = k <;> simp [List.count_cons, hk]
  · rw [run_issued]
    simp [List.count_cons]
  · rw [run_issued]
    simp [List.count_cons]
  · simp only [get]
    split_ifs <;>
      simp [callExists, callGet, callIsExpired, callIsLocked, callLock, callUnlock, callPut,
        callRegenerate, sendJob, World.log, World.setEng, issued, replay]
  · simp [Job.run, callLock, callUnlock, callPut, callRegenerate, World.log, World.setEng,
      issued, replay]

/-- C10 (Lock serialises regenerations, not reads): in the calls issued by
`get` and in the calls issued by a job, every `regenerate` and every `Put`
happens after a `Lock` of the key, while the lock is held, and before the
`Unlock` of the key; every `Get` happens while the execution does not hold
the lock, and a job issues no `Get` at all; the engine state afterwards is
the one the issued calls produce in that order. -/
theorem writes_under_lock (E : Engine σ) (w : World σ) (key : String) (expires : Time)
    (regenerate : Regen σ) (j : Job σ) (wj : World σ) :
    WritesUnderLock key (issued w (get E w key expires regenerate).1)
    ∧ WritesUnderLock j.key (issued wj (j.run E wj).1)
    ∧ (∀ k, Call.Get k ∉ issued wj (j.run E wj).1)
    ∧ (get E w key expires regenerate).1.eng
        = replay E regenerate w.eng (issued w (get E w key expires regenerate).1)
    ∧ (j.run E wj).1.eng = replay E j.regenerate wj.eng (issued wj (j.run E wj).1) := by
  refine ⟨?_, ?_, ?_, ?_, ?_⟩
  · rcases get_issued_cases E w key expires regenerate with h | h | h | h | h | h | ⟨d, h⟩ <;>
      rw [h] <;> unfold WritesUnderLock <;>
      simp only [split_cons, split_nil] <;>
      simp [lockHeld]
  · rw [run_issued]
    unfold WritesUnderLock
    simp only [split_cons, split_nil]
    simp [lockHeld]
  · rw [run_issued]
    simp
  · simp only [get]
    split_ifs <;>
      simp [callExists, callGet, callIsExpired, callIsLocked, callLock, callUnlock, callPut,
        callRegenerate, sendJob, World.log, World.setEng, issued, replay]
  · simp [Job.run, callLock, callUnlock, callPut, callRegenerate, World.log, World.setEng,
      issued, replay]

/-- Scenario "cold read" on the in-memory engine: the read locks once, and
afterwards the key exists, is not expired and holds "v2". -/
theorem scenario_cold_read :
    (issued memEmpty (get memEngine memEmpty "a" 20 regenV2).1).count (Call.Lock "a") = 1
    ∧ (memEngine.Exists (get memEngine memEmpty "a" 20 regenV2).1.eng "a").2 = true
    ∧ (memEngine.IsExpired (get memEngine memEmpty "a" 20 regenV2).1.eng "a").2 = false
    ∧ (memEngine.Get (get memEngine memEmpty "a" 20 regenV2).1.eng "a").2 = (v2, none)
    ∧ (memEngine.IsLocked (get memEngine memEmpty "a" 20 regenV2).1.eng "a").2 = false := by
  decide

/-- Scenario "stale read triggers background refresh" on the in-memory engine:
the read returns "v1"; once the job it sent has run, the engine holds "v2"
with the expiry given to `get`, and the lock is free again. -/
theorem scenario_stale_refresh :
    (get memEngine memStale "a" 20 regenV2).2 = (v1, none)
    ∧ (get memEngine memStale "a" 20 regenV2).1.jobQueue.map
        (fun j => (j.run memEngine (get memEngine memStale "a" 20 regenV2).1).1.eng.entries)
        = [[("a", (v2, 20))]]
    ∧ (get memEngine memStale "a" 20 regenV2).1.jobQueue.map
        (fun j => (j.run memEngine (get memEngine memStale "a" 20 regenV2).1).1.eng.locked)
        = [[]] := by
  decide

/-- C11 (engine read error): when `Exists(key)` answers true and `Get(key)`
answers `(d, e)` with `e` a non-nil error, `get` returns exactly `(d, e)`,
issues only `Exists` and one `Get`, asks neither `IsExpired` nor `IsLocked`,
never calls `regenerate` and sends no job, whatever the expiry and the lock
of the entry are. -/
theorem get_read_error (E : Engine σ) (w : World σ) (key : String) (expires : Time)
    (regenerate : Regen σ) (d : Bytes) (e : String)
    (hExists : (E.Exists w.eng key).2 = true)
    (hGet : (E.Get (E.Exists w.eng key).1 key).2 = (d, some e)) :
    let out := get E w key expires regenerate
    out.2 = (d, some e)
    ∧ issued w out.1 = [Call.Exists key, Call.Get key]
    ∧ (issued w out.1).count (Call.Get key) = 1
    ∧ (∀ k, Call.Get k ∈ issued w out.1 → k = key)
    ∧ Call.regenerate ∉ issued w out.1
    ∧ Call.send ∉ issued w out.1
    ∧ out.1.jobQueue = w.jobQueue
    ∧ (∀ k, Call.IsExpired k ∉ issued w out.1)
    ∧ (∀ k, Call.IsLocked k ∉ issued w out.1) := by
  simp [get, callExists, callGet, World.log, World.setEng, issued, hExists, hGet]

/-- Witness of C11 on the in-memory engine whose reads fail, holding a stale,
unlocked "v1". -/
theorem get_read_error_witness :
    (get (memEngine.withGetErr (some "read failed")) memStale "a" 20 regenV2).2
      = (v1, some "read failed")
    ∧ issued memStale (get (memEngine.withGetErr (some "read failed")) memStale "a" 20 regenV2).1
      = [Call.Exists "a", Call.Get "a"] :=
  have h := get_read_error (memEngine.withGetErr (some "read failed")) memStale "a" 20 regenV2 v1
    "read failed" (by decide) (by decide)
  ⟨h.1, h.2.1⟩

/-- Once the channel is closed, every later materialisation returns the pair
held in `data` and `err` at that moment, whatever the schedule. -/
theorem run_closed (E : Engine σ) (steps : List (Step σ)) :
    ∀ s : Session σ, s.closed = true →
      ∀ r ∈ (Session.run E s steps).2, r = some (s.data, s.err) := by
  induction steps with
  | nil => intro s _ r hr; simp [Session.run] at hr
  | cons st t ih =>
    intro s hs r hr
    cases st with
    | read =>
      have e : s.read E = s := by simp [Session.read, hs]
      simp only [Session.run, e] at hr
      exact ih s hs r hr
    | materialise =>
      simp only [Session.run, List.mem_cons] at hr
      rcases hr with hr | hr
      · rw [hr]; simp [Session.materialise, hs]
      · exact ih s hs r hr
    | work j =>
      simp only [Session.run] at hr
      exact ih (s.work E j) hs r hr

/-- A schedule yields one result for each of its materialisations. -/
theorem run_length (E : Engine σ) (steps : List (Step σ)) :
    ∀ s : Session σ,
      (Session.run E s steps).2.length = (steps.filter Step.isMaterialise).length := by
  induction steps with
  | nil => intro s; simp [Session.run]
  | cons st t ih =>
    intro s
    cases st with
    | read => simpa [Session.run, Step.isMaterialise] using ih (s.read E)
    | materialise => simpa [Session.run, Step.isMaterialise] using ih s
    | work j => simpa [Session.run, Step.isMaterialise] using ih (s.work E j)

/-- While the channel is open a materialisation waits; the results of a
schedule are waits and copies of one pair. -/
theorem run_open (E : Engine σ) (steps : List (Step σ)) :
    ∀ s : Session σ, s.closed = false →
      ∃ v, ∀ r ∈ (Session.run E s steps).2, r = none ∨ r = some v := by
  induction steps with
  | nil => intro s _; exact ⟨(none, none), by simp [Session.run]⟩
  | cons st t ih =>
    intro s hs
    cases st with
    | read =>
      refine ⟨((s.read E).data, (s.read E).err), fun r hr => Or.inr ?_⟩
      simp only [Session.run] at hr
      exact run_closed E t (s.read E) (by simp [Session.read, hs]) r hr
    | materialise =>
      obtain ⟨v, hv⟩ := ih s hs
      refine ⟨v, fun r hr => ?_⟩
      simp only [Session.run, List.mem_cons] at hr
      rcases hr with hr | hr
      · left; rw [hr]; simp [Session.materialise, hs]
      · exact hv r hr
    | work j =>
      obtain ⟨v, hv⟩ := ih (s.work E j) hs
      exact ⟨v, fun r hr => hv r (by simpa [Session.run] using hr)⟩

/-- C12 (engine write error): on first generation, when `Exists(key)` answers
false, `IsLocked(key)` answers false, `regenerate` returns `(v, nil)` and
`Put(key, v, expires)` returns the non-nil error `e`, `get` returns `(v, e)`
and its last call is `Unlock(key)`, which the engine state reflects. In a
job the error of `Put` is dropped:
replacing the error `Put` returns changes nothing of what the job does or
assigns, the pair it assigns is the one `regenerate` returned, and running
it leaves what a handle returns as it was. -/
theorem get_cold_put_error (E : Engine σ) (w : World σ) (key : String) (expires : Time)
    (regenerate : Regen σ) (v : Bytes) (e : String)
    (hExists : (E.Exists w.eng key).2 = false)
    (hLocked : (E.IsLocked (E.Exists w.eng key).1 key).2 = false)
    (hRegen : (regenerate (E.Lock (E.IsLocked (E.Exists w.eng key).1 key).1 key)).2 = (v, none))
    (hPut : (E.Put (regenerate (E.Lock (E.IsLocked (E.Exists w.eng key).1 key).1 key)).1
      key v expires).2 = some e) :
    let out := get E w key expires regenerate
    out.2 = (v, some e)
    ∧ issued w out.1
        = [Call.Exists key, Call.IsLocked key, Call.Lock key, Call.regenerate,
            Call.Put key v expires, Call.Unlock key]
    ∧ (issued w out.1).getLast? = some (Call.Unlock key)
    ∧ (∀ (j : Job σ) (wj : World σ) (f : σ → String → Bytes → Time → Err),
        j.run (E.withPutErr f) wj = j.run E wj)
    ∧ (∀ (j : Job σ) (wj : World σ), (j.run E wj).2 = (j.regenerate (E.Lock wj.eng j.key)).2)
    ∧ (∀ (j : Job σ) (s : Session σ), (s.work E j).materialise = s.materialise)
    ∧ out.1.eng
        = E.Unlock (E.Put (regenerate (E.Lock (E.IsLocked (E.Exists w.eng key).1 key).1 key)).1
            key v expires).1 key := by
  refine ⟨?_, ?_, ?_, ?_, ?_, ?_, ?_⟩
  · simp [get, callExists, callIsLocked, callLock, callUnlock, callPut, callRegenerate,
      World.log, World.setEng, hExists, hLocked, hRegen, hPut]
  · simp [get, callExists, callIsLocked, callLock, callUnlock, callPut, callRegenerate,
      World.log, World.setEng, issued, hExists, hLocked, hRegen, hPut]
  · simp [get, callExists, callIsLocked, callLock, callUnlock, callPut, callRegenerate,
      World.log, World.setEng, issued, hExists, hLocked, hRegen, hPut]
  · intro j wj f
    simp [Job.run, Engine.withPutErr, callLock, callUnlock, callPut, callRegenerate, World.log,
      World.setEng]
  · intro j wj
    simp [Job.run, callLock, callPut, callRegenerate, World.log, World.setEng]
  · intro j s
    simp [Session.work, Session.materialise]
  · simp [get, callExists, callIsLocked, callLock, callUnlock, callPut, callRegenerate,
      World.log, World.setEng, hExists, hLocked, hRegen, hPut]

/-- Witness of C12 on the in-memory engine whose writes fail, empty and unlocked. -/
theorem get_cold_put_error_witness :
    (get (memEngine.withPutErr (fun _ _ _ _ => some "write failed")) memEmpty "a" 20 regenV2).2
      = (v2, some "write failed") :=
  (get_cold_put_error (memEngine.withPutErr (fun _ _ _ _ => some "write failed")) memEmpty "a" 20
    regenV2 v2 "write failed" (by decide) (by decide) (by decide) (by decide)).1

/-- C13 (deferred-once): before the goroutine of `Get` has run a
materialisation waits; once it has run, the handle returns exactly the pair
the one underlying `get` call returned, and under every schedule of further
materialisations, job runs and goroutine steps every materialisation returns
that same pair, one result for each materialisation; a job run in between
assigns only to the named results of `get`. From the start of `Get`, under
every schedule, the results that are not waits are all the same pair. -/
theorem handle_deferred_once (E : Engine σ) (w : World σ) (key : String) (expires : Time)
    (regenerate : Regen σ) (steps : List (Step σ)) :
    (Get w key expires regenerate).materialise = none
    ∧ ((Get w key expires regenerate).read E).materialise
        = some (get E w key expires regenerate).2
    ∧ (∀ r ∈ (Session.run E ((Get w key expires regenerate).read E) steps).2,
        r = some (get E w key expires regenerate).2)
    ∧ (Session.run E ((Get w key expires regenerate).read E) steps).2.length
        = (steps.filter Step.isMaterialise).length
    ∧ (∀ (s : Session σ) (j : Job σ),
        (s.work E j).materialise = s.materialise ∧ (s.work E j).captured = (j.run E s.world).2)
    ∧ (∀ r1 ∈ (Session.run E (Get w key expires regenerate) steps).2,
        ∀ r2 ∈ (Session.run E (Get w key expires regenerate) steps).2,
          r1 ≠ none → r2 ≠ none → r1 = r2) := by
  refine ⟨?_, ?_, ?_, ?_, ?_, ?_⟩
  · simp [Get, Session.materialise]
  · simp [Get, Session.read, Session.materialise]
  · intro r hr
    have h := run_closed E steps ((Get w key expires regenerate).read E)
      (by simp [Get, Session.read]) r hr
    simpa [Get, Session.read] using h
  · exact run_length E steps _
  · intro s j
    simp [Session.work, Session.materialise]
  · obtain ⟨v, hv⟩ := run_open E steps (Get w key expires regenerate) (by simp [Get])
    intro r1 h1 r2 h2 n1 n2
    rcases hv r1 h1 with e1 | e1
    · exact absurd e1 n1
    · rcases hv r2 h2 with e2 | e2
      · exact absurd e2 n2
      · rw [e1, e2]

/-- Scenario for C13 on the in-memory engine holding a stale "v1": the handle is
materialised, the job sent by the read runs and assigns "v2" to the named
results of `get`, and the handle is materialised again; both
materialisations return "v1". -/
theorem scenario_job_between_materialisations :
    (Session.run memEngine ((Get memStale "a" 20 regenV2).read memEngine)
      [Step.materialise, Step.work ⟨"a", 20, regenV2⟩, Step.materialise]).2
      = [some (v1, none), some (v1, none)]
    ∧ (Session.run memEngine ((Get memStale "a" 20 regenV2).read memEngine)
      [Step.materialise, Step.work ⟨"a", 20, regenV2⟩, Step.materialise]).1.captured
      = (v2, none)
    ∧ ((Get memStale "a" 20 regenV2).read memEngine).world.jobQueue.map (fun j => j.key)
      = ["a"] := by
  decide

/-- C14 (Expire is a passthrough): `Expire(key)` issues exactly one call,
`Engine.Expire(key)`, sends no job, returns exactly what that call returned
and leaves the engine in the state that call produced. -/
theorem expire_passthrough (E : Engine σ) (w : World σ) (key : String) :
    issued w (Expire E w key).1 = [Call.Expire key]
    ∧ (Expire E w key).2 = (E.Expire w.eng key).2
    ∧ (Expire E w key).1.eng = (E.Expire w.eng key).1
    ∧ (Expire E w key).1.jobQueue = w.jobQueue
    ∧ Call.send ∉ issued w (Expire E w key).1
    ∧ (∀ c ∈ issued w (Expire E w key).1, c = Call.Expire key) := by
  simp [Expire, callExpire, World.log, World.setEng, issued]

/-- Replaying calls that all carry the key `key` leaves untouched what the
methods on `key` and the regenerate function leave untouched. -/
theorem replay_untouched {α : Type} (E : Engine σ) (key : String) (regenerate : Regen σ)
    (obs : σ → α) (hU : E.Untouched key regenerate obs) (t : List Call) :
    ∀ s : σ, (∀ c ∈ t, ∀ k, c.key? = some k → k = key) →
      obs (replay E regenerate s t) = obs s := by
  obtain ⟨h1, h2, h3, h4, h5, h6, h7, h8, h9⟩ := hU
  induction t with
  | nil => intro s _; rfl
  | cons c t ih =>
    intro s hk
    have hc := hk c (List.mem_cons_self c t)
    have ht : ∀ c ∈ t, ∀ k, c.key? = some k → k = key :=
      fun c hc => hk c (List.mem_cons_of_mem _ hc)
    cases c with
    | Exists k => have hk2 := hc k rfl; subst hk2; simp only [replay]; rw [ih _ ht, h1]
    | Get k => have hk2 := hc k rfl; subst hk2; simp only [replay]; rw [ih _ ht, h2]
    | Put k d e => have hk2 := hc k rfl; subst hk2; simp only [replay]; rw [ih _ ht, h3]
    | IsExpired k => have hk2 := hc k rfl; subst hk2; simp only [replay]; rw [ih _ ht, h4]
    | IsLocked k => have hk2 := hc k rfl; subst hk2; simp only [replay]; rw [ih _ ht, h5]
    | Lock k => have hk2 := hc k rfl; subst hk2; simp only [replay]; rw [ih _ ht, h6]
    | Unlock k => have hk2 := hc k rfl; subst hk2; simp only [replay]; rw [ih _ ht, h7]
    | Expire k => have hk2 := hc k rfl; subst hk2; simp only [replay]; rw [ih _ ht, h8]
    | regenerate => simp only [replay]; rw [ih _ ht, h9]
    | send => simp only [replay]; rw [ih _ ht]

/-- In the in-memory engine, dropping the entries of one key keeps the lookup of another. -/
theorem lookup_filter_ne (k k2 : String) (hne : k2 ≠ k) (l : List (String × (Bytes × Time))) :
    (l.filter (fun e => e.1 ≠ k)).lookup k2 = l.lookup k2 := by
  induction l with
  | nil => rfl
  | cons a l ih =>
    obtain ⟨a1, a2⟩ := a
    by_cases ha : a1 = k
    · subst ha
      have hb : (k2 == a1) = false := by simpa using hne
      rw [List.filter_cons_of_neg (by simp), List.lookup_cons, hb, ih]
    · rw [List.filter_cons_of_pos (by simpa using ha), List.lookup_cons, List.lookup_cons, ih]

/-- In the in-memory engine, moving the expiry of one key keeps the lookup of another. -/
theorem lookup_map_ne (k k2 : String) (hne : k2 ≠ k) (now : Time)
    (l : List (String × (Bytes × Time))) :
    (l.map (fun e => if e.1 = k then (e.1, (e.2.1, now)) else e)).lookup k2 = l.lookup k2 := by
  induction l with
  | nil => rfl
  | cons a l ih =>
    obtain ⟨a1, a2⟩ := a
    by_cases ha : a1 = k
    · subst ha
      have hb : (k2 == a1) = false := by simpa using hne
      rw [List.map_cons, if_pos rfl, List.lookup_cons, List.lookup_cons, hb, ih]
    · rw [List.map_cons, if_neg ha, List.lookup_cons, List.lookup_cons, ih]

/-- The in-memory engine keeps what it holds under "b" when called with "a". -/
theorem memEngine_untouched (regenerate : Regen Mem)
    (hr : ∀ s, observeB (regenerate s).1 = observeB s) :
    memEngine.Untouched "a" regenerate observeB := by
  refine ⟨fun _ => rfl, fun _ => rfl, ?_, fun _ => rfl, fun _ => rfl, ?_, ?_, ?_, hr⟩
  · intro s d t
    have h := lookup_filter_ne "a" "b" (by decide) s.entries
    simpa [observeB, memEngine, List.lookup] using h
  · intro s
    simp [observeB, memEngine]
  · intro s
    have h : "b" ∈ s.locked.erase "a" ↔ "b" ∈ s.locked :=
      List.mem_erase_of_ne (by decide)
    simp [observeB, memEngine, h]
  · intro s
    have h := lookup_map_ne "a" "b" (by decide) s.now s.entries
    simp [observeB, memEngine, h]

/-- C15 (key frame): every engine call issued by `get(key, ...)`, by the job
it sends and by `Expire(key)` carries `key` as its key argument; the only job
`get` can add to the queue is the one closing over `key`; the engine state
after each of the three is the replay of the logged calls, so the engine is
reached through these calls only; hence whatever the engine's methods on
`key` and the regenerate function leave untouched, such as the entry and the
lock of another key, is untouched by all three. -/
theorem key_frame (E : Engine σ) (w : World σ) (key : String) (expires : Time)
    (regenerate : Regen σ) (wj : World σ) :
    (∀ c ∈ issued w (get E w key expires regenerate).1, ∀ k, c.key? = some k → k = key)
    ∧ ((get E w key expires regenerate).1.jobQueue = w.jobQueue
        ∨ (get E w key expires regenerate).1.jobQueue
            = w.jobQueue ++ [⟨key, expires, regenerate⟩])
    ∧ (∀ c ∈ issued wj ((⟨key, expires, regenerate⟩ : Job σ).run E wj).1,
        ∀ k, c.key? = some k → k = key)
    ∧ (∀ c ∈ issued w (Expire E w key).1, ∀ k, c.key? = some k → k = key)
    ∧ (get E w key expires regenerate).1.eng
        = replay E regenerate w.eng (issued w (get E w key expires regenerate).1)
    ∧ ((⟨key, expires, regenerate⟩ : Job σ).run E wj).1.eng
        = replay E regenerate wj.eng
            (issued wj ((⟨key, expires, regenerate⟩ : Job σ).run E wj).1)
    ∧ (Expire E w key).1.eng = replay E regenerate w.eng (issued w (Expire E w key).1)
    ∧ (∀ (α : Type) (obs : σ → α), E.Untouched key regenerate obs →
        obs (get E w key expires regenerate).1.eng = obs w.eng
        ∧ obs ((⟨key, expires, regenerate⟩ : Job σ).run E wj).1.eng = obs wj.eng
        ∧ obs (Expire E w key).1.eng = obs w.eng) := by
  have hg : ∀ c ∈ issued w (get E w key expires regenerate).1,
      ∀ k, c.key? = some k → k = key := by
    rcases get_issued_cases E w key expires regenerate with h | h | h | h | h | h | ⟨d, h⟩ <;>
      rw [h] <;> simp [Call.key?, eq_comm]
  have hj : ∀ c ∈ issued wj ((⟨key, expires, regenerate⟩ : Job σ).run E wj).1,
      ∀ k, c.key? = some k → k = key := by
    rw [run_issued]
    simp [Call.key?, eq_comm]
  have he : ∀ c ∈ issued w (Expire E w key).1, ∀ k, c.key? = some k → k = key := by
    simp [Expire, callExpire, World.log, World.setEng, issued, Call.key?, eq_comm]
  have rg : (get E w key expires regenerate).1.eng
      = replay E regenerate w.eng (issued w (get E w key expires regenerate).1) := by
    simp only [get]
    split_ifs <;>
      simp [callExists, callGet, callIsExpired, callIsLocked, callLock, callUnlock, callPut,
        callRegenerate, sendJob, World.log, World.setEng, issued, replay]
  have rj : ((⟨key, expires, regenerate⟩ : Job σ).run E wj).1.eng
      = replay E regenerate wj.eng
          (issued wj ((⟨key, expires, regenerate⟩ : Job σ).run E wj).1) := by
    simp [Job.run, callLock, callUnlock, callPut, callRegenerate, World.log, World.setEng,
      issued, replay]
  have re : (Expire E w key).1.eng
      = replay E regenerate w.eng (issued w (Expire E w key).1) := by
    simp [Expire, callExpire, World.log, World.setEng, issued, replay]
  refine ⟨hg, get_jobQueue_cases E w key expires regenerate, hj, he, rg, rj, re, ?_⟩
  intro α obs hU
  refine ⟨?_, ?_, ?_⟩
  · rw [rg]; exact replay_untouched E key regenerate obs hU _ _ hg
  · rw [rj]; exact replay_untouched E key regenerate obs hU _ _ hj
  · rw [re]; exact replay_untouched E key regenerate obs hU _ _ he

/-- Witness of C15 on the in-memory engine holding "a" and "b": a stale read of
"a", the job it sends and `Expire("a")` leave the entry and the lock of "b"
as they were. -/
theorem key_frame_witness :
    observeB (get memEngine memTwoKeys "a" 30 regenV2).1.eng = observeB memTwoKeys.eng
    ∧ observeB ((⟨"a", 30, regenV2⟩ : Job Mem).run memEngine memTwoKeys).1.eng
        = observeB memTwoKeys.eng
    ∧ observeB (Expire memEngine memTwoKeys "a").1.eng = observeB memTwoKeys.eng :=
  (key_frame memEngine memTwoKeys "a" 30 regenV2 memTwoKeys).2.2.2.2.2.2.2 _ observeB
    (memEngine_untouched regenV2 (fun _ => rfl))

/-- C16 (`Engine.Get` only for present keys): in every execution of `get` the
first call is `Exists(key)`; `Get` or `IsExpired` is issued only if that
`Exists` call answered true; and when it answered false neither is issued and
the returned bytes are nil or, on the path that called `regenerate`, the
bytes `regenerate` returned. -/
theorem get_reads_only_present (E : Engine σ) (w : World σ) (key : String) (expires : Time)
    (regenerate : Regen σ) :
    let out := get E w key expires regenerate
    (issued w out.1).head? = some (Call.Exists key)
    ∧ (issued w out.1).count (Call.Exists key) = 1
    ∧ ((∃ k, Call.Get k ∈ issued w out.1 ∨ Call.IsExpired k ∈ issued w out.1) →
        (E.Exists w.eng key).2 = true)
    ∧ ((E.Exists w.eng key).2 = false →
        (∀ k, Call.Get k ∉ issued w out.1)
        ∧ (∀ k, Call.IsExpired k ∉ issued w out.1)
        ∧ (out.2.1 = none
          ∨ (Call.regenerate ∈ issued w out.1
            ∧ out.2.1
              = (regenerate (E.Lock (E.IsLocked (E.Exists w.eng key).1 key).1 key)).2.1))) := by
  refine ⟨?_, ?_, ?_, ?_⟩
  · rcases get_issued_cases E w key expires regenerate with h | h | h | h | h | h | ⟨d, h⟩ <;>
      rw [h] <;> rfl
  · rcases get_issued_cases E w key expires regenerate with h | h | h | h | h | h | ⟨d, h⟩ <;>
      rw [h] <;> simp [List.count_cons]
  · by_cases hx : (E.Exists w.eng key).2 = true
    · exact fun _ => hx
    · simp only [Bool.not_eq_true] at hx
      simp only [get]
      split_ifs <;>
        simp_all [callExists, callIsLocked, callLock, callUnlock, callPut, callRegenerate,
          World.log, World.setEng, issued]
  · intro hx
    simp only [get]
    split_ifs <;>
      simp_all [callExists, callIsLocked, callLock, callUnlock, callPut, callRegenerate,
        World.log, World.setEng, issued]

/-- Witness of C16 on the empty in-memory engine: the key is absent, no `Get` is
issued and the bytes returned are those of `regenerate`. -/
theorem get_reads_only_present_witness :
    (∀ k, Call.Get k ∉ issued memEmpty (get memEngine memEmpty "a" 20 regenV2).1)
    ∧ (get memEngine memEmpty "a" 20 regenV2).2.1 = v2 :=
  have h := (get_reads_only_present memEngine memEmpty "a" 20 regenV2).2.2.2 (by decide)
  ⟨h.1, by decide⟩

end cacher
